import Mathlib

/-!
Verification model of the fiml repository (src/fiml/init file).

The program pairs video files with subtitle files, keeps a persistent
watch-position counter in a JSON dotfile, and drives an interactive
pick/play/confirm cycle.  External collaborators (the mpv player process,
the inquirer prompts, directory traversal, the Python json and mimetypes
standard-library modules) are modelled at their interfaces: prompts become
explicit answer parameters, the player invocation becomes a trace event,
and the stdlib tables and codecs are embedded for the fragment the program
exercises, as documented on each definition.
-/

namespace Fiml

/-! Lexicographic order on strings, as Python compares str values:
elementwise by code point.  Embedded as a structural Boolean function so
that concrete instances evaluate in the kernel. -/

/-- Lexicographic comparison of char lists by code point; the empty list is
least.  This is the comparison Python's sorted uses on str values. -/
def charListLe : List Char → List Char → Bool
  | [], _ => true
  | _ :: _, [] => false
  | a :: as, b :: bs => if a < b then true else if b < a then false else charListLe as bs

/-- Lexicographic order on strings by code point (Python str order). -/
def pyLe (a b : String) : Prop := charListLe a.data b.data = true

instance : DecidableRel pyLe := fun a b => by
  unfold pyLe; infer_instance

theorem charListLe_total (as bs : List Char) : charListLe as bs = true ∨ charListLe bs as = true := by
  induction as generalizing bs with
  | nil => left; rfl
  | cons a as ih =>
    cases bs with
    | nil => right; rfl
    | cons b bs =>
      by_cases hab : a < b
      · left; simp [charListLe, hab]
      · by_cases hba : b < a
        · right; simp [charListLe, hba]
        · have hne : ¬ b < a := hba
          rcases ih bs with h | h
          · left; simp [charListLe, hab, hba, h]
          · right; simp [charListLe, hab, hba, h]

theorem charListLe_trans (as bs cs : List Char) (h₁ : charListLe as bs = true)
    (h₂ : charListLe bs cs = true) : charListLe as cs = true := by
  induction as generalizing bs cs with
  | nil => rfl
  | cons a as ih =>
    cases bs with
    | nil => simp [charListLe] at h₁
    | cons b bs =>
      cases cs with
      | nil => simp [charListLe] at h₂
      | cons c cs =>
        simp only [charListLe] at h₁ h₂ ⊢
        by_cases hab : a < b <;> by_cases hbc : b < c
        · have : a < c := lt_trans hab hbc
          simp [this]
        · simp only [hbc, if_false] at h₂
          by_cases hcb : c < b
          · simp [hcb] at h₂
          · have hbc' : b = c := le_antisymm (not_lt.mp hcb) (not_lt.mp hbc)
            subst hbc'
            simp [hab]
        · simp only [hab, if_false] at h₁
          by_cases hba : b < a
          · simp [hba] at h₁
          · have hab' : a = b := le_antisymm (not_lt.mp hba) (not_lt.mp hab)
            subst hab'
            simp [hbc]
        · simp only [hab, if_false] at h₁
          simp only [hbc, if_false] at h₂
          by_cases hba : b < a
          · simp [hba] at h₁
          · by_cases hcb : c < b
            · simp [hcb] at h₂
            · have hab' : a = b := le_antisymm (not_lt.mp hba) (not_lt.mp hab)
              have hbc' : b = c := le_antisymm (not_lt.mp hcb) (not_lt.mp hbc)
              subst hab'; subst hbc'
              simp at h₁ h₂ ⊢
              exact ih bs cs h₁ h₂

instance : IsTotal String pyLe :=
  ⟨fun a b => charListLe_total a.data b.data⟩

instance : IsTrans String pyLe :=
  ⟨fun a b c => charListLe_trans a.data b.data c.data⟩

/-! The Matcher (class Video). -/

/-- Python resize: truncate seq to at most n elements, then pad on the
right with the default value until the length is exactly n. -/
def resize {α : Type} (seq : List α) (n : Nat) (default : α) : List α :=
  let seq1 := seq.take n
  seq1 ++ List.replicate (n - seq1.length) default

/-- Suffix test on the underlying char lists (used to model extension
dispatch of the mimetypes table). -/
def hasSuffix (s suffix : String) : Bool := List.isSuffixOf suffix.data s.data

/-- Models the Python stdlib mimetypes.guess_type, restricted to the
lower-case file extensions relevant to this program: common video
containers map to a MIME type starting with the six characters of the
video prefix, and SubRip files map to application/x-subrip.  Unknown
extensions yield none, as guess_type does. -/
def guess_type (filename : String) : Option String :=
  if hasSuffix filename ".mp4" then some "video/mp4"
  else if hasSuffix filename ".mkv" then some "video/x-matroska"
  else if hasSuffix filename ".avi" then some "video/x-msvideo"
  else if hasSuffix filename ".srt" then some "application/x-subrip"
  else none

/-- Episode record built by the Matcher: Video(index, video_file, sub_file).
The Python sub_file is a str or None; here an Option. -/
structure Video where
  index : Nat
  video : String
  sub : Option String
deriving DecidableEq

/-- Video.is_video: guess_type is not None and its first six characters
are the video prefix. -/
def Video.is_video (filename : String) : Bool :=
  match guess_type filename with
  | none => false
  | some t => t.data.take 6 == "video/".data

/-- Video.is_sub: guess_type equals application/x-subrip. -/
def Video.is_sub (filename : String) : Bool :=
  guess_type filename == some "application/x-subrip"

/-- Video.find_all: filter the files into video and subtitle candidates,
sort each lexicographically, resize the subtitle list to the video count,
and zip with enumeration. -/
def Video.find_all (files : List String) : List Video :=
  let videos := List.insertionSort pyLe (files.filter Video.is_video)
  let subs := List.insertionSort pyLe (files.filter Video.is_sub)
  let subs2 := resize (subs.map some) videos.length none
  (List.enum (videos.zip subs2)).map fun p =>
    { index := p.1, video := p.2.1, sub := p.2.2 }

theorem resize_length {α : Type} (seq : List α) (n : Nat) (d : α) :
    (resize seq n d).length = n := by
  simp [resize]

theorem enum_map_comp_snd {α β : Type} (l : List α) (f : α → β) :
    (List.enum l).map (fun p => f p.2) = l.map f := by
  apply List.ext_getElem?
  intro i
  rw [List.getElem?_map, List.getElem?_map, List.getElem?_enum]
  cases l[i]? <;> rfl

theorem enum_map_comp_fst {α : Type} (l : List α) :
    (List.enum l).map (fun p => p.1) = List.range l.length := by
  apply List.ext_getElem?
  intro i
  rw [List.getElem?_map, List.getElem?_enum]
  by_cases hi : i < l.length
  · rw [List.getElem?_eq_getElem hi, List.getElem?_range hi]
    rfl
  · rw [List.getElem?_eq_none (by omega), List.getElem?_eq_none (by simpa using hi)]
    rfl

theorem resize_eq_take_append {α : Type} (s : List α) (n : Nat) (d : α) :
    resize s n d = s.take n ++ List.replicate (n - s.length) d := by
  show List.take n s ++ List.replicate (n - (List.take n s).length) d =
    List.take n s ++ List.replicate (n - s.length) d
  have h : n - (List.take n s).length = n - s.length := by
    rw [List.length_take]
    omega
  rw [h]

theorem find_all_maps (files : List String) :
    (Video.find_all files).map Video.video =
        List.insertionSort pyLe (files.filter Video.is_video) ∧
      (Video.find_all files).map Video.index =
        List.range (files.filter Video.is_video).length ∧
      (Video.find_all files).map Video.sub =
        resize ((List.insertionSort pyLe (files.filter Video.is_sub)).map some)
          (List.insertionSort pyLe (files.filter Video.is_video)).length none := by
  set vs := List.insertionSort pyLe (files.filter Video.is_video) with hvs
  have hvlen : vs.length = (files.filter Video.is_video).length :=
    (List.perm_insertionSort pyLe (files.filter Video.is_video)).length_eq
  set ss2 := resize ((List.insertionSort pyLe (files.filter Video.is_sub)).map some)
      vs.length none with hss2
  have hslen : ss2.length = vs.length := resize_length _ _ _
  have heps : Video.find_all files =
      (List.enum (vs.zip ss2)).map fun p => Video.mk p.1 p.2.1 p.2.2 := rfl
  have hzlen : (vs.zip ss2).length = vs.length := by
    rw [List.length_zip, hslen, Nat.min_self]
  refine ⟨?_, ?_, ?_⟩
  · rw [heps, List.map_map]
    exact (enum_map_comp_snd (vs.zip ss2) Prod.fst).trans
      (List.map_fst_zip vs ss2 (le_of_eq hslen.symm))
  · rw [heps, List.map_map]
    exact (enum_map_comp_fst (vs.zip ss2)).trans (by rw [hzlen, hvlen])
  · rw [heps, List.map_map]
    exact (enum_map_comp_snd (vs.zip ss2) Prod.snd).trans
      (List.map_snd_zip vs ss2 (le_of_eq hslen))

/-- C1: Video.find_all sorts video-classified and subtitle-classified paths
independently in lexicographic order and pairs them by position; missing
subtitles are filled with an absent value, excess subtitles are discarded,
there is exactly one episode per video-classified path, indices run 0, 1,
2, ... in sorted-video order, and on the concrete input the mp4 files pair
as the claim states. -/
theorem find_all_pairing (files : List String) :
    (Video.find_all files).length = (files.filter Video.is_video).length ∧
      List.Sorted pyLe ((Video.find_all files).map Video.video) ∧
      List.Perm ((Video.find_all files).map Video.video) (files.filter Video.is_video) ∧
      (Video.find_all files).map Video.index = List.range (Video.find_all files).length ∧
      (Video.find_all files).map Video.sub =
        ((List.insertionSort pyLe (files.filter Video.is_sub)).map some).take
            (files.filter Video.is_video).length ++
          List.replicate ((files.filter Video.is_video).length -
              (files.filter Video.is_sub).length) none ∧
      (Video.find_all files).map Video.video =
        List.insertionSort pyLe (files.filter Video.is_video) ∧
      Video.find_all ["b.mp4", "a.mp4", "a.srt"] =
        [{ index := 0, video := "a.mp4", sub := some "a.srt" },
         { index := 1, video := "b.mp4", sub := none }] := by
  obtain ⟨h₁, h₂, h₃⟩ := find_all_maps files
  have hvlen : (List.insertionSort pyLe (files.filter Video.is_video)).length =
      (files.filter Video.is_video).length :=
    (List.perm_insertionSort pyLe (files.filter Video.is_video)).length_eq
  have hsslen : (List.insertionSort pyLe (files.filter Video.is_sub)).length =
      (files.filter Video.is_sub).length :=
    (List.perm_insertionSort pyLe (files.filter Video.is_sub)).length_eq
  have hlen : (Video.find_all files).length = (files.filter Video.is_video).length := by
    have := congrArg List.length h₁
    simpa [hvlen] using this
  refine ⟨hlen, ?_, ?_, ?_, ?_, h₁, ?_⟩
  · rw [h₁]
    exact List.sorted_insertionSort pyLe _
  · rw [h₁]
    exact List.perm_insertionSort pyLe _
  · rw [h₂, hlen]
  · rw [h₃, hvlen, resize_eq_take_append, List.length_map, hsslen]
  · decide

/-! The Workflow (one interactive cycle).  The inquirer prompts are
external collaborators: choose_option's selection and each ask_confirm
answer enter the model as parameters (in noconfirm mode the selection is
the default index and each confirmation answer is true).  Every observable
effect of a cycle is recorded as a trace event: the all-watched log line,
the option prompt, each yes/no question with its answer, the player
invocation (with the counter value at that moment), and any write of the
state file. -/

/-- Message of the reset confirmation question. -/
def reset_message : String := "Reset counter to this episode?"

/-- Message of the completion confirmation question. -/
def complete_message : String := "Did you watch this episode completely?"

/-- Observable effects of the program, in order of occurrence. -/
inductive Event where
  | loggedAllWatched : Event
  | prompted (options : List String) (dflt : Nat) : Event
  | asked (message : String) (answer : Bool) : Event
  | watched (index : Nat) (counterNow : Nat) : Event
  | savedFile : Event
deriving DecidableEq

/-- Result of one Workflow.run call: the final in-memory counter, the
returned Bool, and the trace of effects. -/
structure RunResult where
  counter : Nat
  ret : Bool
  events : List Event
deriving DecidableEq

/-- The counter after the opening all-watched check: clamped down to the
episode count n when it was at least n, kept otherwise. -/
def Workflow.clampedCounter (n c0 : Nat) : Nat := if n ≤ c0 then n else c0

/-- Events emitted up to and including the episode prompt: the all-watched
log line when the counter is at least the episode count, then the prompt
listing the options with the clamped counter as default index. -/
def Workflow.promptEvents (n c0 : Nat) (opts : List String) : List Event :=
  (if n ≤ c0 then [Event.loggedAllWatched] else []) ++
    [Event.prompted opts (Workflow.clampedCounter n c0)]

/-- The counter after the reset question: when the chosen index differs
from the counter the question is asked, and a yes answer moves the counter
to the chosen index; otherwise the counter is untouched. -/
def Workflow.counterAfterReset (c1 choice : Nat) (resetAns : Bool) : Nat :=
  if c1 ≠ choice then (if resetAns then choice else c1) else c1

/-- The reset question event, emitted exactly when the chosen index
differs from the counter. -/
def Workflow.resetEvents (c1 choice : Nat) (resetAns : Bool) : List Event :=
  if c1 ≠ choice then [Event.asked reset_message resetAns] else []

/-- Workflow.run.  all_files is the directory listing (rglob is an
external collaborator), counter0 the in-memory counter on entry, choice
the index returned by the episode prompt, resetAns and completeAns the
answers returned by the two possible confirmation prompts. -/
def Workflow.run (all_files : List String) (counter0 : Nat) (choice : Nat)
    (resetAns : Bool) (completeAns : Bool) : RunResult :=
  let videos := Video.find_all all_files
  let n := videos.length
  let c1 := Workflow.clampedCounter n counter0
  let ev2 := Workflow.promptEvents n counter0 (videos.map Video.video ++ ["exit"])
  if choice = n then
    { counter := c1, ret := false, events := ev2 }
  else
    let c2 := Workflow.counterAfterReset c1 choice resetAns
    let ev4 := ev2 ++ Workflow.resetEvents c1 choice resetAns ++ [Event.watched choice c2]
    if choice = c2 then
      { counter := if completeAns then c2 + 1 else c2, ret := completeAns,
        events := ev4 ++ [Event.asked complete_message completeAns] }
    else
      { counter := c2, ret := false, events := ev4 }

/-- Extracts a player invocation from an event. -/
def extractWatch : Event → Option (Nat × Nat)
  | Event.watched i c => some (i, c)
  | _ => none

/-- The player invocation recorded in a trace, if any: the episode index
and the in-memory counter at the moment of the call. -/
def playedAt (r : RunResult) : Option (Nat × Nat) :=
  r.events.findSome? extractWatch

/-- Whether an event is the question with the given message. -/
def askedPred (msg : String) : Event → Bool
  | Event.asked m _ => m == msg
  | _ => false

/-- Whether an event is the question with the given message, answered yes. -/
def confirmedPred (msg : String) : Event → Bool
  | Event.asked m b => m == msg && b
  | _ => false

/-- Whether the question with the given message was asked during the run. -/
def askedMsg (r : RunResult) (msg : String) : Bool :=
  r.events.any (askedPred msg)

/-- Whether the question with the given message was asked and answered yes. -/
def confirmedMsg (r : RunResult) (msg : String) : Bool :=
  r.events.any (confirmedPred msg)

theorem beq_reset_complete : (reset_message == complete_message) = false := by decide

theorem beq_complete_reset : (complete_message == reset_message) = false := by decide

theorem findSome?_extractWatch_promptEvents (n c0 : Nat) (opts : List String) :
    (Workflow.promptEvents n c0 opts).findSome? extractWatch = none := by
  by_cases h : n ≤ c0 <;>
    simp [Workflow.promptEvents, h, extractWatch, List.findSome?_cons]

theorem findSome?_extractWatch_resetEvents (c1 choice : Nat) (r : Bool) :
    (Workflow.resetEvents c1 choice r).findSome? extractWatch = none := by
  by_cases h : c1 ≠ choice <;>
    simp [Workflow.resetEvents, h, extractWatch, List.findSome?_cons]

theorem any_askedPred_promptEvents (n c0 : Nat) (opts : List String) (msg : String) :
    (Workflow.promptEvents n c0 opts).any (askedPred msg) = false := by
  by_cases h : n ≤ c0 <;> simp [Workflow.promptEvents, h, askedPred]

theorem any_confirmedPred_promptEvents (n c0 : Nat) (opts : List String) (msg : String) :
    (Workflow.promptEvents n c0 opts).any (confirmedPred msg) = false := by
  by_cases h : n ≤ c0 <;> simp [Workflow.promptEvents, h, confirmedPred]

theorem any_askedPred_complete_resetEvents (c1 choice : Nat) (r : Bool) :
    (Workflow.resetEvents c1 choice r).any (askedPred complete_message) = false := by
  by_cases h : c1 ≠ choice <;>
    simp [Workflow.resetEvents, h, askedPred, beq_reset_complete]

theorem any_confirmedPred_complete_resetEvents (c1 choice : Nat) (r : Bool) :
    (Workflow.resetEvents c1 choice r).any (confirmedPred complete_message) = false := by
  by_cases h : c1 ≠ choice <;>
    simp [Workflow.resetEvents, h, confirmedPred, beq_reset_complete]

theorem savedFile_not_mem_promptEvents (n c0 : Nat) (opts : List String) :
    Event.savedFile ∉ Workflow.promptEvents n c0 opts := by
  by_cases h : n ≤ c0 <;> simp [Workflow.promptEvents, h]

theorem savedFile_not_mem_resetEvents (c1 choice : Nat) (r : Bool) :
    Event.savedFile ∉ Workflow.resetEvents c1 choice r := by
  by_cases h : c1 ≠ choice <;> simp [Workflow.resetEvents, h]

theorem run_eq_exit (files : List String) (c0 choice : Nat) (r cp : Bool)
    (hx : choice = (Video.find_all files).length) :
    Workflow.run files c0 choice r cp =
      { counter := Workflow.clampedCounter (Video.find_all files).length c0,
        ret := false,
        events := Workflow.promptEvents (Video.find_all files).length c0
          ((Video.find_all files).map Video.video ++ ["exit"]) } := by
  simp only [Workflow.run, if_pos hx]

theorem run_eq_gate (files : List String) (c0 choice : Nat) (r cp : Bool)
    (hx : choice ≠ (Video.find_all files).length)
    (hg : choice = Workflow.counterAfterReset
      (Workflow.clampedCounter (Video.find_all files).length c0) choice r) :
    Workflow.run files c0 choice r cp =
      { counter := if cp then Workflow.counterAfterReset
            (Workflow.clampedCounter (Video.find_all files).length c0) choice r + 1
          else Workflow.counterAfterReset
            (Workflow.clampedCounter (Video.find_all files).length c0) choice r,
        ret := cp,
        events := Workflow.promptEvents (Video.find_all files).length c0
            ((Video.find_all files).map Video.video ++ ["exit"]) ++
          Workflow.resetEvents
            (Workflow.clampedCounter (Video.find_all files).length c0) choice r ++
          [Event.watched choice (Workflow.counterAfterReset
            (Workflow.clampedCounter (Video.find_all files).length c0) choice r),
           Event.asked complete_message cp] } := by
  simp only [Workflow.run, if_neg hx, if_pos hg]
  simp [List.append_assoc]

theorem run_eq_play (files : List String) (c0 choice : Nat) (r cp : Bool)
    (hx : choice ≠ (Video.find_all files).length)
    (hg : choice ≠ Workflow.counterAfterReset
      (Workflow.clampedCounter (Video.find_all files).length c0) choice r) :
    Workflow.run files c0 choice r cp =
      { counter := Workflow.counterAfterReset
          (Workflow.clampedCounter (Video.find_all files).length c0) choice r,
        ret := false,
        events := Workflow.promptEvents (Video.find_all files).length c0
            ((Video.find_all files).map Video.video ++ ["exit"]) ++
          Workflow.resetEvents
            (Workflow.clampedCounter (Video.find_all files).length c0) choice r ++
          [Event.watched choice (Workflow.counterAfterReset
            (Workflow.clampedCounter (Video.find_all files).length c0) choice r)] } := by
  simp only [Workflow.run, if_neg hx, if_neg hg]

/-- C2: whenever the player was invoked for index i with the in-memory
counter at c at that moment, the completion question is asked iff i = c; a
yes answer then advances the counter by exactly one and the call returns
true, while i differing from c asks nothing and leaves the counter at c;
in the concrete scenario (three episodes, counter 0, picking index 2,
confirming reset and completion) the final counter is 3. -/
theorem completion_gate (files : List String) (c0 choice : Nat) (r cp : Bool) (i c : Nat)
    (hp : playedAt (Workflow.run files c0 choice r cp) = some (i, c)) :
    (askedMsg (Workflow.run files c0 choice r cp) complete_message = true ↔ i = c) ∧
      (i = c → (Workflow.run files c0 choice r cp).counter = (if cp then c + 1 else c) ∧
        (Workflow.run files c0 choice r cp).ret = cp) ∧
      (i ≠ c → askedMsg (Workflow.run files c0 choice r cp) complete_message = false ∧
        (Workflow.run files c0 choice r cp).counter = c ∧
        (Workflow.run files c0 choice r cp).ret = false) ∧
      (Workflow.run ["e0.mp4", "e1.mp4", "e2.mp4"] 0 2 true true).counter = 3 ∧
      (Workflow.run ["e0.mp4", "e1.mp4", "e2.mp4"] 0 2 true true).ret = true := by
  by_cases hx : choice = (Video.find_all files).length
  · rw [run_eq_exit files c0 choice r cp hx] at hp
    simp [playedAt, findSome?_extractWatch_promptEvents] at hp
  · by_cases hg : choice = Workflow.counterAfterReset
        (Workflow.clampedCounter (Video.find_all files).length c0) choice r
    · rw [run_eq_gate files c0 choice r cp hx hg] at hp ⊢
      simp only [playedAt, List.findSome?_append, findSome?_extractWatch_promptEvents,
        findSome?_extractWatch_resetEvents, List.findSome?_cons, extractWatch,
        Option.none_or, List.findSome?_nil] at hp
      obtain ⟨hi, hc⟩ : choice = i ∧ Workflow.counterAfterReset
          (Workflow.clampedCounter (Video.find_all files).length c0) choice r = c := by
        simpa using hp
      subst hi
      subst hc
      refine ⟨?_, ?_, ?_, by decide, by decide⟩
      · simp [askedMsg, List.any_append, any_askedPred_promptEvents,
          any_askedPred_complete_resetEvents, askedPred]
        exact hg
      · intro _
        exact ⟨rfl, rfl⟩
      · intro hne
        exact absurd hg hne
    · rw [run_eq_play files c0 choice r cp hx hg] at hp ⊢
      simp only [playedAt, List.findSome?_append, findSome?_extractWatch_promptEvents,
        findSome?_extractWatch_resetEvents, List.findSome?_cons, extractWatch,
        Option.none_or, List.findSome?_nil] at hp
      obtain ⟨hi, hc⟩ : choice = i ∧ Workflow.counterAfterReset
          (Workflow.clampedCounter (Video.find_all files).length c0) choice r = c := by
        simpa using hp
      subst hi
      subst hc
      refine ⟨?_, ?_, ?_, by decide, by decide⟩
      · simp [askedMsg, List.any_append, any_askedPred_promptEvents,
          any_askedPred_complete_resetEvents, askedPred]
        exact hg
      · intro heq
        exact absurd heq hg
      · intro _
        refine ⟨?_, rfl, rfl⟩
        simp [askedMsg, List.any_append, any_askedPred_promptEvents,
          any_askedPred_complete_resetEvents, askedPred]

/-- C2 witness: the theorem applied to the concrete reset-then-advance
scenario. -/
theorem completion_gate_witness :
    (Workflow.run ["e0.mp4", "e1.mp4", "e2.mp4"] 0 2 true true).counter = 3 ∧
      askedMsg (Workflow.run ["e0.mp4", "e1.mp4", "e2.mp4"] 0 2 true true)
        complete_message = true := by
  have h := completion_gate ["e0.mp4", "e1.mp4", "e2.mp4"] 0 2 true true 2 2 (by decide)
  exact ⟨by simpa using (h.2.1 rfl).1, h.1.mpr rfl⟩

/-- C3: in a cycle that plays an episode, choosing an index different from
the current (clamped) counter asks the reset question — a yes answer moves
the counter to the chosen index, a no answer leaves it unchanged, and the
episode is played either way — while choosing the index equal to the
counter never asks the reset question. -/
theorem reset_question (files : List String) (c0 choice : Nat) (r cp : Bool)
    (hc : choice < (Video.find_all files).length) :
    (choice ≠ Workflow.clampedCounter (Video.find_all files).length c0 →
      askedMsg (Workflow.run files c0 choice r cp) reset_message = true ∧
      playedAt (Workflow.run files c0 choice r cp) =
        some (choice, if r then choice
          else Workflow.clampedCounter (Video.find_all files).length c0)) ∧
    (choice = Workflow.clampedCounter (Video.find_all files).length c0 →
      askedMsg (Workflow.run files c0 choice r cp) reset_message = false ∧
      playedAt (Workflow.run files c0 choice r cp) = some (choice, choice)) := by
  have hx : choice ≠ (Video.find_all files).length := Nat.ne_of_lt hc
  constructor
  · intro hne
    have hne' : Workflow.clampedCounter (Video.find_all files).length c0 ≠ choice :=
      fun h => hne h.symm
    rcases r with _ | _
    · have hcar0 : Workflow.counterAfterReset
          (Workflow.clampedCounter (Video.find_all files).length c0) choice false =
          Workflow.clampedCounter (Video.find_all files).length c0 := by
        simp [Workflow.counterAfterReset, hne']
      have hg : choice ≠ Workflow.counterAfterReset
          (Workflow.clampedCounter (Video.find_all files).length c0) choice false := by
        rw [hcar0]; exact hne
      rw [run_eq_play files c0 choice false cp hx hg]
      constructor
      · simp [askedMsg, List.any_append, any_askedPred_promptEvents,
          Workflow.resetEvents, hne', askedPred]
      · simp [playedAt, List.findSome?_append, findSome?_extractWatch_promptEvents,
          findSome?_extractWatch_resetEvents, List.findSome?_cons, extractWatch, hcar0]
    · have hcar1 : Workflow.counterAfterReset
          (Workflow.clampedCounter (Video.find_all files).length c0) choice true =
          choice := by
        simp [Workflow.counterAfterReset, hne']
      have hg : choice = Workflow.counterAfterReset
          (Workflow.clampedCounter (Video.find_all files).length c0) choice true :=
        hcar1.symm
      rw [run_eq_gate files c0 choice true cp hx hg]
      constructor
      · simp [askedMsg, List.any_append, any_askedPred_promptEvents,
          Workflow.resetEvents, hne', askedPred]
      · simp [playedAt, List.findSome?_append, findSome?_extractWatch_promptEvents,
          findSome?_extractWatch_resetEvents, List.findSome?_cons, extractWatch, hcar1]
  · intro heq
    have heq' : Workflow.clampedCounter (Video.find_all files).length c0 = choice :=
      heq.symm
    have hcar : Workflow.counterAfterReset
        (Workflow.clampedCounter (Video.find_all files).length c0) choice r =
        Workflow.clampedCounter (Video.find_all files).length c0 := by
      simp [Workflow.counterAfterReset, heq']
    have hg : choice = Workflow.counterAfterReset
        (Workflow.clampedCounter (Video.find_all files).length c0) choice r := by
      rw [hcar]; exact heq
    rw [run_eq_gate files c0 choice r cp hx hg]
    constructor
    · simp [askedMsg, List.any_append, any_askedPred_promptEvents,
        Workflow.resetEvents, heq', askedPred, beq_complete_reset]
    · simp only [playedAt, List.findSome?_append, findSome?_extractWatch_promptEvents,
        findSome?_extractWatch_resetEvents, List.findSome?_cons, extractWatch,
        Option.none_or, List.findSome?_nil]
      rw [← hg]

/-- C3 witness: the reset branch of the theorem at the concrete scenario
with three episodes, counter 0 and chosen index 2. -/
theorem reset_question_witness :
    askedMsg (Workflow.run ["e0.mp4", "e1.mp4", "e2.mp4"] 0 2 true true)
        reset_message = true ∧
      playedAt (Workflow.run ["e0.mp4", "e1.mp4", "e2.mp4"] 0 2 true true) =
        some (2, 2) := by
  have h := (reset_question ["e0.mp4", "e1.mp4", "e2.mp4"] 0 2 true true
    (by decide)).1 (by decide)
  exact ⟨h.1, by simpa using h.2⟩

/-- C4 counterexample: with three episodes and a persisted counter of 5
(at least the episode count), the claim says the cycle terminates with
ran "=" false without presenting a choice and without invoking the player;
but the code still presents the prompt (default: the exit entry), and a
user choosing episode 0 gets it played — here the run even returns true. -/
theorem allwatched_cex :
    (Video.find_all ["e0.mp4", "e1.mp4", "e2.mp4"]).length = 3 ∧
      Event.prompted ["e0.mp4", "e1.mp4", "e2.mp4", "exit"] 3 ∈
        (Workflow.run ["e0.mp4", "e1.mp4", "e2.mp4"] 5 0 true true).events ∧
      playedAt (Workflow.run ["e0.mp4", "e1.mp4", "e2.mp4"] 5 0 true true) =
        some (0, 0) ∧
      (Workflow.run ["e0.mp4", "e1.mp4", "e2.mp4"] 5 0 true true).ret = true := by
  decide

/-- C4 amended: when the counter is at least the episode count, the cycle
logs the all-watched message and clamps the counter down to the episode
count (never up) — the whole cycle behaves exactly as if the counter were
the episode count — but the choice prompt is still presented, with
default the exit entry; when the selection is that default (as noconfirm
mode selects), the cycle returns false with no player invocation and the
counter ends at the episode count. -/
theorem allwatched_clamp (files : List String) (c0 : Nat) (r cp : Bool)
    (h : (Video.find_all files).length ≤ c0) :
    (∀ choice, Workflow.run files c0 choice r cp =
      Workflow.run files (Video.find_all files).length choice r cp) ∧
      Event.loggedAllWatched ∈
        (Workflow.run files c0 (Video.find_all files).length r cp).events ∧
      Event.prompted ((Video.find_all files).map Video.video ++ ["exit"])
          (Video.find_all files).length ∈
        (Workflow.run files c0 (Video.find_all files).length r cp).events ∧
      (Workflow.run files c0 (Video.find_all files).length r cp).counter =
        (Video.find_all files).length ∧
      (Workflow.run files c0 (Video.find_all files).length r cp).ret = false ∧
      playedAt (Workflow.run files c0 (Video.find_all files).length r cp) = none := by
  have hcl : Workflow.clampedCounter (Video.find_all files).length c0 =
      (Video.find_all files).length := by
    simp [Workflow.clampedCounter, h]
  have hpe : Workflow.promptEvents (Video.find_all files).length c0 =
      Workflow.promptEvents (Video.find_all files).length (Video.find_all files).length := by
    funext opts
    simp [Workflow.promptEvents, Workflow.clampedCounter, h]
  refine ⟨?_, ?_⟩
  · intro choice
    simp only [Workflow.run, hcl, hpe]
    have hcl2 : Workflow.clampedCounter (Video.find_all files).length
        (Video.find_all files).length = (Video.find_all files).length := by
      simp [Workflow.clampedCounter]
    rw [hcl2]
  · rw [run_eq_exit files c0 (Video.find_all files).length r cp rfl]
    refine ⟨?_, ?_, hcl, rfl, ?_⟩
    · simp [Workflow.promptEvents, h]
    · simp [Workflow.promptEvents, h, hcl]
    · simp [playedAt, findSome?_extractWatch_promptEvents]

/-- C4 amended witness: the theorem applied with three episodes and a
persisted counter of 5. -/
theorem allwatched_clamp_witness :
    Workflow.run ["e0.mp4", "e1.mp4", "e2.mp4"] 5 1 true true =
        Workflow.run ["e0.mp4", "e1.mp4", "e2.mp4"] 3 1 true true ∧
      (Workflow.run ["e0.mp4", "e1.mp4", "e2.mp4"] 5 3 true true).counter = 3 ∧
      (Workflow.run ["e0.mp4", "e1.mp4", "e2.mp4"] 5 3 true true).ret = false ∧
      playedAt (Workflow.run ["e0.mp4", "e1.mp4", "e2.mp4"] 5 3 true true) = none := by
  have h := allwatched_clamp ["e0.mp4", "e1.mp4", "e2.mp4"] 5 true true (by decide)
  refine ⟨?_, ?_, ?_, ?_⟩
  · have h1 := h.1 1
    simpa using h1
  · have h2 := h.2.2.2.1
    simpa using h2
  · have h3 := h.2.2.2.2.1
    simpa using h3
  · have h4 := h.2.2.2.2.2
    simpa using h4

/-- C10: Workflow.run returns true iff the completion question was asked
and answered yes during the call, and then the final counter is exactly
one more than the counter at the moment the episode was played; when it
returns false and an episode was played, the final counter equals the
counter at play time (the completion gate did not advance it). -/
theorem run_ret_iff_advanced (files : List String) (c0 choice : Nat) (r cp : Bool) :
    ((Workflow.run files c0 choice r cp).ret = true ↔
      confirmedMsg (Workflow.run files c0 choice r cp) complete_message = true) ∧
      ((Workflow.run files c0 choice r cp).ret = true →
        ∃ i c, playedAt (Workflow.run files c0 choice r cp) = some (i, c) ∧
          (Workflow.run files c0 choice r cp).counter = c + 1) ∧
      ((Workflow.run files c0 choice r cp).ret = false →
        ∀ i c, playedAt (Workflow.run files c0 choice r cp) = some (i, c) →
          (Workflow.run files c0 choice r cp).counter = c) := by
  by_cases hx : choice = (Video.find_all files).length
  · rw [run_eq_exit files c0 choice r cp hx]
    refine ⟨?_, ?_, ?_⟩
    · simp [confirmedMsg, any_confirmedPred_promptEvents]
    · intro hfalse
      simp at hfalse
    · intro _ i c hplay
      simp [playedAt, findSome?_extractWatch_promptEvents] at hplay
  · by_cases hg : choice = Workflow.counterAfterReset
        (Workflow.clampedCounter (Video.find_all files).length c0) choice r
    · rw [run_eq_gate files c0 choice r cp hx hg]
      refine ⟨?_, ?_, ?_⟩
      · simp [confirmedMsg, List.any_append, any_confirmedPred_promptEvents,
          any_confirmedPred_complete_resetEvents, confirmedPred]
      · intro hret
        refine ⟨choice, Workflow.counterAfterReset
          (Workflow.clampedCounter (Video.find_all files).length c0) choice r, ?_, ?_⟩
        · simp [playedAt, List.findSome?_append, findSome?_extractWatch_promptEvents,
            findSome?_extractWatch_resetEvents, List.findSome?_cons, extractWatch]
        · simp only at hret
          rw [hret] at *
          simp
      · intro hret i c hplay
        have hcp : cp = false := by simpa using hret
        subst hcp
        simp only [playedAt, List.findSome?_append, findSome?_extractWatch_promptEvents,
          findSome?_extractWatch_resetEvents, List.findSome?_cons, extractWatch,
          Option.none_or, List.findSome?_nil] at hplay
        obtain ⟨hi, hc2⟩ : choice = i ∧ Workflow.counterAfterReset
            (Workflow.clampedCounter (Video.find_all files).length c0) choice r = c := by
          simpa using hplay
        subst hc2
        simp
    · rw [run_eq_play files c0 choice r cp hx hg]
      refine ⟨?_, ?_, ?_⟩
      · simp [confirmedMsg, List.any_append, any_confirmedPred_promptEvents,
          any_confirmedPred_complete_resetEvents, confirmedPred, extractWatch]
      · intro hfalse
        simp at hfalse
      · intro _ i c hplay
        simp only [playedAt, List.findSome?_append, findSome?_extractWatch_promptEvents,
          findSome?_extractWatch_resetEvents, List.findSome?_cons, extractWatch,
          Option.none_or, List.findSome?_nil] at hplay
        obtain ⟨hi, hc2⟩ : choice = i ∧ Workflow.counterAfterReset
            (Workflow.clampedCounter (Video.find_all files).length c0) choice r = c := by
          simpa using hplay
        subst hc2
        simp

/-- C10 witness: the theorem applied to the concrete reset-then-advance
scenario, in which run returns true. -/
theorem run_ret_iff_advanced_witness :
    confirmedMsg (Workflow.run ["e0.mp4", "e1.mp4", "e2.mp4"] 0 2 true true)
      complete_message = true :=
  (run_ret_iff_advanced ["e0.mp4", "e1.mp4", "e2.mp4"] 0 2 true true).1.mp (by decide)

/-- Workflow.run never emits a state-file write: the Python body of run
contains no write_file call. -/
theorem run_no_save (files : List String) (c0 choice : Nat) (r cp : Bool) :
    Event.savedFile ∉ (Workflow.run files c0 choice r cp).events := by
  by_cases hx : choice = (Video.find_all files).length
  · rw [run_eq_exit files c0 choice r cp hx]
    simpa using savedFile_not_mem_promptEvents (Video.find_all files).length c0 _
  · by_cases hg : choice = Workflow.counterAfterReset
        (Workflow.clampedCounter (Video.find_all files).length c0) choice r
    · rw [run_eq_gate files c0 choice r cp hx hg]
      simp [List.mem_append, savedFile_not_mem_promptEvents, savedFile_not_mem_resetEvents]
    · rw [run_eq_play files c0 choice r cp hx hg]
      simp [List.mem_append, savedFile_not_mem_promptEvents, savedFile_not_mem_resetEvents]

/-! The batch driver (main).  Each iteration of the while loop re-scans
the directory and consumes the user's interactions for that cycle; a
CycleInput packages the directory listing seen by the iteration and the
prompt answers for it.  The loop body is: further_watch = workflow.run()
and args.batch; the loop continues exactly while that is true, and stops
as well when the supplied interaction trace is exhausted. -/

structure CycleInput where
  files : List String
  choice : Nat
  resetAns : Bool
  completeAns : Bool

/-- The while loop of main: repeatedly call Workflow.run, continuing only
while the call returned true and batch mode is enabled.  Returns the final
in-memory counter together with the results of the executed cycles. -/
def Workflow.runLoop (batch : Bool) : Nat → List CycleInput → Nat × List RunResult
  | counter, [] => (counter, [])
  | counter, inp :: rest =>
    let res := Workflow.run inp.files counter inp.choice inp.resetAns inp.completeAns
    if res.ret && batch then
      let next := Workflow.runLoop batch res.counter rest
      (next.1, res :: next.2)
    else (res.counter, [res])

/-- Events of one whole process: the events of the workflow cycles run by
main's while loop, then the single state-file write performed by the
Context destructor when the interpreter tears the Workflow down at
process end. -/
def mainEvents (batch : Bool) (c0 : Nat) (inputs : List CycleInput) : List Event :=
  ((Workflow.runLoop batch c0 inputs).2.map RunResult.events).flatten ++ [Event.savedFile]

theorem runLoop_ne_nil (batch : Bool) (c0 : Nat) (inp : CycleInput)
    (rest : List CycleInput) : (Workflow.runLoop batch c0 (inp :: rest)).2 ≠ [] := by
  simp only [Workflow.runLoop]
  split
  · simp
  · simp

/-- C9: the batch driver never starts another cycle after a cycle that
did not both run and advance: every cycle other than the last returned
true with batch mode enabled, and whenever the loop stopped before
exhausting the supplied interaction trace, the last executed cycle
returned false or batch mode was off. -/
theorem batch_loop_stops (batch : Bool) (c0 : Nat) (inputs : List CycleInput) :
    (∀ i, i + 1 < (Workflow.runLoop batch c0 inputs).2.length →
      ((Workflow.runLoop batch c0 inputs).2.getD i ⟨0, false, []⟩).ret = true ∧
        batch = true) ∧
      ((Workflow.runLoop batch c0 inputs).2.length < inputs.length →
        ∃ last, (Workflow.runLoop batch c0 inputs).2.getLast? = some last ∧
          (last.ret = false ∨ batch = false)) := by
  induction inputs generalizing c0 with
  | nil =>
    constructor
    · intro i hi
      simp [Workflow.runLoop] at hi
    · intro hlen
      simp [Workflow.runLoop] at hlen
  | cons inp rest ih =>
    simp only [Workflow.runLoop]
    rcases hcond : (Workflow.run inp.files c0 inp.choice inp.resetAns inp.completeAns).ret
        && batch with _ | _
    · simp only [hcond, Bool.false_eq_true, if_false]
      constructor
      · intro i hi
        simp at hi
      · intro _
        refine ⟨Workflow.run inp.files c0 inp.choice inp.resetAns inp.completeAns, by simp, ?_⟩
        rcases Bool.and_eq_false_iff.mp hcond with h | h
        · exact Or.inl h
        · exact Or.inr h
    · simp only [hcond, if_true]
      obtain ⟨hret, hbatch⟩ := Bool.and_eq_true_iff.mp hcond
      constructor
      · intro i hi
        cases i with
        | zero => exact ⟨hret, hbatch⟩
        | succ j =>
          simp only [List.length_cons, Nat.add_lt_add_iff_right] at hi
          simpa using (ih (Workflow.run inp.files c0 inp.choice inp.resetAns
            inp.completeAns).counter).1 j hi
      · intro hlen
        simp only [List.length_cons, Nat.add_lt_add_iff_right] at hlen
        obtain ⟨last, hlast, hor⟩ := (ih (Workflow.run inp.files c0 inp.choice
          inp.resetAns inp.completeAns).counter).2 hlen
        refine ⟨last, ?_, hor⟩
        have hne : (Workflow.runLoop batch (Workflow.run inp.files c0 inp.choice
            inp.resetAns inp.completeAns).counter rest).2 ≠ [] := by
          intro h
          rw [h] at hlast
          simp at hlast
        obtain ⟨x, xs, hxs⟩ := List.exists_cons_of_ne_nil hne
        rw [hxs] at hlast ⊢
        rw [List.getLast?_cons_cons]
        exact hlast

/-- C9 witness: a two-cycle batch trace whose first cycle advanced (so its
result is non-final and returned true), and a trace whose first cycle was
an exit (so the loop stopped with one result despite a second supplied
interaction). -/
theorem batch_loop_stops_witness :
    ((Workflow.runLoop true 0
        [⟨["e0.mp4", "e1.mp4", "e2.mp4"], 0, true, true⟩,
         ⟨["e0.mp4", "e1.mp4", "e2.mp4"], 3, true, true⟩]).2.getD 0
      ⟨0, false, []⟩).ret = true ∧
    (∃ last, (Workflow.runLoop true 0
        [⟨["e0.mp4", "e1.mp4", "e2.mp4"], 3, true, true⟩,
         ⟨["e0.mp4", "e1.mp4", "e2.mp4"], 0, true, true⟩]).2.getLast? = some last ∧
      (last.ret = false ∨ true = false)) :=
  ⟨((batch_loop_stops true 0 _).1 0 (by decide)).1,
   (batch_loop_stops true 0 _).2 (by decide)⟩

/-- C5 counterexample: on the exit path and on a normal play-and-advance
path of concrete cycles, Workflow.run returns without ever writing the
state file: no save event is in its trace, so run does not persist the
state before returning. -/
theorem run_never_saves_cex :
    Event.savedFile ∉ (Workflow.run ["e0.mp4", "e1.mp4", "e2.mp4"] 0 2 true true).events ∧
      Event.savedFile ∉
        (Workflow.run ["e0.mp4", "e1.mp4", "e2.mp4"] 0 3 true true).events := by
  decide

/-- C5 amended: Workflow.run performs no state-file write on any exit
path; the file is written exactly once per process, by the Context
destructor at teardown, so the process trace ends with the single save
event. -/
theorem save_only_at_teardown (batch : Bool) (c0 : Nat) (inputs : List CycleInput) :
    (∀ res ∈ (Workflow.runLoop batch c0 inputs).2, Event.savedFile ∉ res.events) ∧
      (mainEvents batch c0 inputs).getLast? = some Event.savedFile ∧
      (mainEvents batch c0 inputs).count Event.savedFile = 1 := by
  have hall : ∀ res ∈ (Workflow.runLoop batch c0 inputs).2,
      Event.savedFile ∉ res.events := by
    induction inputs generalizing c0 with
    | nil =>
      intro res hres
      simp [Workflow.runLoop] at hres
    | cons inp rest ih =>
      intro res hres
      simp only [Workflow.runLoop] at hres
      rcases hcond : (Workflow.run inp.files c0 inp.choice inp.resetAns
          inp.completeAns).ret && batch with _ | _
      · rw [hcond] at hres
        simp at hres
        rw [hres]
        exact run_no_save _ _ _ _ _
      · rw [hcond] at hres
        simp at hres
        rcases hres with hres | hres
        · rw [hres]
          exact run_no_save _ _ _ _ _
        · exact ih _ res hres
  refine ⟨hall, ?_, ?_⟩
  · exact List.getLast?_concat _
  · rw [mainEvents, List.count_append]
    have hzero : (((Workflow.runLoop batch c0 inputs).2.map RunResult.events).flatten).count
        Event.savedFile = 0 := by
      rw [List.count_eq_zero]
      intro hmem
      obtain ⟨l, hl, hmeml⟩ := List.mem_flatten.mp hmem
      obtain ⟨res, hres, hev⟩ := List.mem_map.mp hl
      exact hall res hres (hev ▸ hmeml)
    rw [hzero]
    simp

/-- C5 amended witness: the theorem applied to a one-cycle batch process;
that cycle saved nothing itself and the process trace holds exactly one
save, at the end. -/
theorem save_only_at_teardown_witness :
    Event.savedFile ∉
        (Workflow.run ["e0.mp4", "e1.mp4", "e2.mp4"] 0 2 true true).events ∧
      (mainEvents true 0 [⟨["e0.mp4", "e1.mp4", "e2.mp4"], 2, true, true⟩]).count
        Event.savedFile = 1 :=
  ⟨(save_only_at_teardown true 0 [⟨["e0.mp4", "e1.mp4", "e2.mp4"], 2, true, true⟩]).1 _
      (by decide),
   (save_only_at_teardown true 0 [⟨["e0.mp4", "e1.mp4", "e2.mp4"], 2, true, true⟩]).2.2⟩

/-! The ProgressStore (class Context).  The persisted dotfile holds a JSON
object; the Python json module is external, so its dump and load are
embedded for the fragment the program writes: one flat object whose
values are non-negative integers or strings, dumped with indent 4.  File
contents are char lists; a file that may not exist is an Option. -/

/-- A JSON value of the modelled fragment: a non-negative integer or a
string. -/
inductive Jval where
  | num (n : Nat)
  | str (s : String)
deriving DecidableEq

/-- The data dict of a Context: keys in insertion order with their
values. -/
abbrev JData := List (String × Jval)

/-- Decimal digits of n, most significant first, via fuel-bounded
recursion (the fuel n + 1 always suffices). -/
def natCharsAux : Nat → Nat → List Char
  | 0, _ => []
  | fuel + 1, n =>
    if n < 10 then [Nat.digitChar n]
    else natCharsAux fuel (n / 10) ++ [Nat.digitChar (n % 10)]

/-- Decimal representation of a natural number. -/
def natChars (n : Nat) : List Char := natCharsAux (n + 1) n

/-- A JSON string literal: the characters between double quotes (the
modelled fragment holds only characters that need no escaping). -/
def quoteChars (s : String) : List Char := '"' :: (s.data ++ ['"'])

/-- Serialization of one JSON value. -/
def jvalChars : Jval → List Char
  | Jval.num n => natChars n
  | Jval.str s => quoteChars s

/-- One object entry as json.dump with indent 4 renders it: four spaces,
the quoted key, a colon and a space, the value. -/
def entryChars (kv : String × Jval) : List Char :=
  [' ', ' ', ' ', ' '] ++ quoteChars kv.1 ++ [':', ' '] ++ jvalChars kv.2

/-- The entries joined by comma-newline separators. -/
def entriesChars : JData → List Char
  | [] => []
  | [kv] => entryChars kv
  | kv :: kv2 :: rest => entryChars kv ++ ',' :: '\n' :: entriesChars (kv2 :: rest)

/-- Models json.dump(data, file, indent=4) on a flat object of the
modelled fragment. -/
def json_dumps : JData → List Char
  | [] => ['{', '}']
  | kv :: rest => '{' :: '\n' :: (entriesChars (kv :: rest) ++ ['\n', '}'])

/-- Numeric value of a decimal digit character. -/
def charToDigit (c : Char) : Nat := c.toNat - 48

/-- Value of a decimal digit string. -/
def digitsToNat (ds : List Char) : Nat := ds.foldl (fun a c => a * 10 + charToDigit c) 0

/-- Parses a quoted string literal of the modelled fragment, returning it
with the remaining input. -/
def parseQuoted (s : List Char) : Option (String × List Char) :=
  match s with
  | c :: rest =>
    if c = '"' then
      match rest.dropWhile (· != '"') with
      | c2 :: tail =>
        if c2 = '"' then some (String.mk (rest.takeWhile (· != '"')), tail) else none
      | [] => none
    else none
  | [] => none

/-- Parses one JSON value of the modelled fragment. -/
def parseVal (s : List Char) : Option (Jval × List Char) :=
  match s with
  | [] => none
  | c :: rest =>
    if c = '"' then
      (parseQuoted (c :: rest)).map fun p => (Jval.str p.1, p.2)
    else if c.isDigit then
      some (Jval.num (digitsToNat ((c :: rest).takeWhile Char.isDigit)),
        (c :: rest).dropWhile Char.isDigit)
    else none

/-- Parses one indented object entry. -/
def parseEntry (s : List Char) : Option ((String × Jval) × List Char) :=
  match s with
  | c1 :: c2 :: c3 :: c4 :: rest =>
    if c1 = ' ' ∧ c2 = ' ' ∧ c3 = ' ' ∧ c4 = ' ' then
      match parseQuoted rest with
      | none => none
      | some (k, rest1) =>
        match rest1 with
        | d1 :: d2 :: rest2 =>
          if d1 = ':' ∧ d2 = ' ' then
            match parseVal rest2 with
            | none => none
            | some (v, rest3) => some ((k, v), rest3)
          else none
        | _ => none
    else none
  | _ => none

/-- Parses a comma-newline separated entry sequence; the fuel bounds the
entry count (any fuel at least the entry count gives the same result). -/
def parseEntries : Nat → List Char → Option (JData × List Char)
  | 0, _ => none
  | fuel + 1, s =>
    match parseEntry s with
    | none => none
    | some (kv, rest) =>
      match rest with
      | c1 :: c2 :: rest2 =>
        if c1 = ',' ∧ c2 = '\n' then
          match parseEntries fuel rest2 with
          | some (d, tail) => some (kv :: d, tail)
          | none => none
        else some ([kv], rest)
      | _ => some ([kv], rest)

/-- Models json.load on the persisted dotfile, restricted to the grammar
json.dump (indent 4) emits for the modelled fragment; any input outside
that grammar — in particular a truncated or empty file — yields none, as
json.load raises on malformed input. -/
def json_loads (s : List Char) : Option JData :=
  match s with
  | c1 :: c2 :: rest =>
    if c1 = '{' ∧ c2 = '}' ∧ rest = [] then some []
    else if c1 = '{' ∧ c2 = '\n' then
      match parseEntries (rest.length + 1) rest with
      | some (d, tail) => if tail = ['\n', '}'] then some d else none
      | none => none
    else none
  | _ => none

/-- A character that json.dump writes verbatim inside a string literal:
printable ASCII other than the quote and the backslash. -/
def safeChar (c : Char) : Bool :=
  decide (32 ≤ c.toNat) && decide (c.toNat ≤ 126) && c != '"' && c != '\\'

/-- A string of the modelled fragment. -/
def safeString (s : String) : Bool := s.data.all safeChar

/-- A value of the modelled fragment. -/
def jvalSafe : Jval → Bool
  | Jval.num _ => true
  | Jval.str s => safeString s

/-- A valid state dict: every key and string value lies in the modelled
fragment and the keys are distinct (as in a Python dict). -/
def ValidJData (d : JData) : Prop :=
  (∀ kv ∈ d, safeString kv.1 = true ∧ jvalSafe kv.2 = true) ∧ (d.map Prod.fst).Nodup

instance : DecidablePred ValidJData := fun d => by
  unfold ValidJData
  infer_instance

theorem natCharsAux_irrel (n : Nat) : ∀ f1 f2, n < f1 → n < f2 →
    natCharsAux f1 n = natCharsAux f2 n := by
  induction n using Nat.strong_induction_on with
  | _ n ih =>
    intro f1 f2 h1 h2
    match f1, f2 with
    | a + 1, b + 1 =>
      simp only [natCharsAux]
      by_cases h10 : n < 10
      · rw [if_pos h10, if_pos h10]
      · rw [if_neg h10, if_neg h10]
        have hdiv : n / 10 < n := Nat.div_lt_self (by omega) (by omega)
        rw [ih (n / 10) hdiv a b (by omega) (by omega)]

theorem natChars_unfold (n : Nat) : natChars n =
    if n < 10 then [Nat.digitChar n]
    else natChars (n / 10) ++ [Nat.digitChar (n % 10)] := by
  show natCharsAux (n + 1) n = _
  simp only [natCharsAux]
  by_cases h10 : n < 10
  · rw [if_pos h10, if_pos h10]
  · rw [if_neg h10, if_neg h10]
    have hdiv : n / 10 < n := Nat.div_lt_self (by omega) (by omega)
    rw [natCharsAux_irrel (n / 10) n (n / 10 + 1) hdiv (Nat.lt_succ_self _)]
    rfl

theorem digitChar_isDigit (m : Nat) (h : m < 10) : (Nat.digitChar m).isDigit = true := by
  interval_cases m <;> decide

theorem charToDigit_digitChar (m : Nat) (h : m < 10) :
    charToDigit (Nat.digitChar m) = m := by
  interval_cases m <;> decide

theorem natChars_ne_nil (n : Nat) : natChars n ≠ [] := by
  rw [natChars_unfold n]
  by_cases h10 : n < 10
  · simp [h10]
  · simp [h10]

theorem natChars_all_digit (n : Nat) : ∀ c ∈ natChars n, c.isDigit = true := by
  induction n using Nat.strong_induction_on with
  | _ n ih =>
    rw [natChars_unfold n]
    by_cases h10 : n < 10
    · rw [if_pos h10]
      intro c hc
      simp at hc
      subst hc
      exact digitChar_isDigit n h10
    · rw [if_neg h10]
      intro c hc
      rcases List.mem_append.mp hc with h | h
      · exact ih (n / 10) (Nat.div_lt_self (by omega) (by omega)) c h
      · simp at h
        subst h
        exact digitChar_isDigit (n % 10) (Nat.mod_lt _ (by omega))

theorem digitsToNat_natChars (n : Nat) : digitsToNat (natChars n) = n := by
  induction n using Nat.strong_induction_on with
  | _ n ih =>
    rw [natChars_unfold n]
    by_cases h10 : n < 10
    · rw [if_pos h10]
      simp [digitsToNat, charToDigit_digitChar n h10]
    · rw [if_neg h10]
      have hdiv : n / 10 < n := Nat.div_lt_self (by omega) (by omega)
      have hmod : n % 10 < 10 := Nat.mod_lt _ (by omega)
      calc digitsToNat (natChars (n / 10) ++ [Nat.digitChar (n % 10)])
          = digitsToNat (natChars (n / 10)) * 10 +
              charToDigit (Nat.digitChar (n % 10)) := by
            simp [digitsToNat, List.foldl_append]
        _ = (n / 10) * 10 + n % 10 := by
            rw [ih (n / 10) hdiv, charToDigit_digitChar _ hmod]
        _ = n := by omega

theorem takeWhile_append_all {α : Type} (p : α → Bool) (l r : List α)
    (h : ∀ a ∈ l, p a = true) : (l ++ r).takeWhile p = l ++ r.takeWhile p := by
  induction l with
  | nil => simp
  | cons a l ih =>
    have ha : p a = true := h a (by simp)
    simp only [List.cons_append, List.takeWhile_cons, ha, if_true]
    rw [ih (fun b hb => h b (by simp [hb]))]

theorem dropWhile_append_all {α : Type} (p : α → Bool) (l r : List α)
    (h : ∀ a ∈ l, p a = true) : (l ++ r).dropWhile p = r.dropWhile p := by
  induction l with
  | nil => simp
  | cons a l ih =>
    have ha : p a = true := h a (by simp)
    simp only [List.cons_append, List.dropWhile_cons, ha, if_true]
    exact ih (fun b hb => h b (by simp [hb]))

theorem takeWhile_head_false {α : Type} (p : α → Bool) (r : List α)
    (h : ∀ c, r.head? = some c → p c = false) : r.takeWhile p = [] := by
  cases r with
  | nil => rfl
  | cons a l => simp [List.takeWhile_cons, h a rfl]

theorem dropWhile_head_false {α : Type} (p : α → Bool) (r : List α)
    (h : ∀ c, r.head? = some c → p c = false) : r.dropWhile p = r := by
  cases r with
  | nil => rfl
  | cons a l => simp [List.dropWhile_cons, h a rfl]

theorem safeString_bne_quote (s : String) (h : safeString s = true) :
    ∀ a ∈ s.data, (a != '"') = true := by
  intro a ha
  have hsafe : safeChar a = true := List.all_eq_true.mp h a ha
  simp only [safeChar, Bool.and_eq_true] at hsafe
  exact hsafe.1.2

theorem parseQuoted_quote (s : String) (tail : List Char) (h : safeString s = true) :
    parseQuoted (quoteChars s ++ tail) = some (s, tail) := by
  have hq : quoteChars s ++ tail = '"' :: (s.data ++ ('"' :: tail)) := by
    simp [quoteChars]
  rw [hq]
  simp only [parseQuoted, if_pos rfl]
  rw [dropWhile_append_all _ _ _ (safeString_bne_quote s h),
    takeWhile_append_all _ _ _ (safeString_bne_quote s h)]
  have hd : List.dropWhile (· != '"') ('"' :: tail) = '"' :: tail := by
    simp [List.dropWhile_cons]
  have ht : List.takeWhile (· != '"') ('"' :: tail) = [] := by
    simp [List.takeWhile_cons]
  rw [hd, ht]
  simp only [if_pos rfl, List.append_nil]
  cases s with
  | mk data => rfl

theorem parseVal_str (s : String) (tail : List Char) (h : safeString s = true) :
    parseVal (quoteChars s ++ tail) = some (Jval.str s, tail) := by
  have hq : quoteChars s ++ tail = '"' :: (s.data ++ ('"' :: tail)) := by
    simp [quoteChars]
  rw [hq]
  simp only [parseVal, if_pos rfl]
  rw [← hq, parseQuoted_quote s tail h]
  rfl

theorem parseVal_num (n : Nat) (tail : List Char)
    (htail : ∀ c, tail.head? = some c → c.isDigit = false) :
    parseVal (natChars n ++ tail) = some (Jval.num n, tail) := by
  obtain ⟨c, cs, hcons⟩ := List.exists_cons_of_ne_nil (natChars_ne_nil n)
  have hdig : ∀ a ∈ natChars n, Char.isDigit a = true := natChars_all_digit n
  have hcdig : c.isDigit = true := hdig c (by rw [hcons]; simp)
  have hcne : ¬ c = '"' := by
    intro hq
    rw [hq] at hcdig
    exact absurd hcdig (by decide)
  have htake : (natChars n ++ tail).takeWhile Char.isDigit = natChars n := by
    rw [takeWhile_append_all Char.isDigit _ _ hdig, takeWhile_head_false _ _ htail,
      List.append_nil]
  have hdrop : (natChars n ++ tail).dropWhile Char.isDigit = tail := by
    rw [dropWhile_append_all Char.isDigit _ _ hdig, dropWhile_head_false _ _ htail]
  rw [hcons] at htake hdrop
  rw [hcons, List.cons_append]
  simp only [parseVal, if_neg hcne, hcdig, if_pos rfl, List.cons_append] at htake hdrop ⊢
  rw [htake, hdrop, ← hcons, digitsToNat_natChars n]
  simp

theorem parseEntry_entry (kv : String × Jval) (tail : List Char)
    (hk : safeString kv.1 = true) (hv : jvalSafe kv.2 = true)
    (htail : ∀ c, tail.head? = some c → c.isDigit = false) :
    parseEntry (entryChars kv ++ tail) = some (kv, tail) := by
  obtain ⟨k, v⟩ := kv
  have he : entryChars (k, v) ++ tail =
      ' ' :: ' ' :: ' ' :: ' ' ::
        (quoteChars k ++ (':' :: ' ' :: (jvalChars v ++ tail))) := by
    simp [entryChars, List.append_assoc]
  rw [he]
  simp only [parseEntry]
  rw [parseQuoted_quote k _ hk]
  cases v with
  | num n =>
    simp [jvalChars, parseVal_num n tail htail]
  | str s =>
    have hs : safeString s = true := by simpa [jvalSafe] using hv
    simp [jvalChars, parseVal_str s tail hs]

theorem parseEntries_entries : ∀ d : JData, d ≠ [] →
    (∀ kv ∈ d, safeString kv.1 = true ∧ jvalSafe kv.2 = true) →
    ∀ fuel, d.length ≤ fuel →
      parseEntries fuel (entriesChars d ++ ['\n', '}']) = some (d, ['\n', '}']) := by
  intro d
  induction d with
  | nil => intro h; exact absurd rfl h
  | cons kv rest ih =>
    intro _ hsafe fuel hfuel
    match fuel, hfuel with
    | f + 1, hfuel =>
      cases rest with
      | nil =>
        simp only [entriesChars, parseEntries]
        rw [parseEntry_entry kv ['\n', '}'] (hsafe kv (by simp)).1 (hsafe kv (by simp)).2
          (by intro c hc; simp at hc; rw [← hc]; decide)]
        simp
      | cons kv2 rest2 =>
        simp only [entriesChars, List.append_assoc, List.cons_append, parseEntries]
        rw [parseEntry_entry kv
          (',' :: '\n' :: (entriesChars (kv2 :: rest2) ++ ['\n', '}']))
          (hsafe kv (by simp)).1 (hsafe kv (by simp)).2
          (by intro c hc; simp at hc; rw [← hc]; decide)]
        simp [ih (by simp) (fun x hx => hsafe x (by simp [hx])) f
          (by simp at hfuel ⊢; omega)]

theorem entryChars_length_pos (kv : String × Jval) : 1 ≤ (entryChars kv).length := by
  simp [entryChars, quoteChars]

theorem entriesChars_length_ge (d : JData) : d.length ≤ (entriesChars d).length := by
  induction d with
  | nil => simp [entriesChars]
  | cons kv rest ih =>
    cases rest with
    | nil =>
      simpa [entriesChars] using entryChars_length_pos kv
    | cons kv2 rest2 =>
      simp only [entriesChars, List.length_append, List.length_cons]
      have h1 := entryChars_length_pos kv
      have h2 : (kv2 :: rest2).length ≤ (entriesChars (kv2 :: rest2)).length := ih
      simp at h2 ⊢
      omega

theorem json_loads_json_dumps (d : JData) (h : ValidJData d) :
    json_loads (json_dumps d) = some d := by
  cases d with
  | nil => rfl
  | cons kv rest =>
    simp only [json_dumps, json_loads]
    rw [if_neg (by intro hcon; exact absurd hcon.2.1 (by decide))]
    rw [if_pos (by simp)]
    have hlen : (kv :: rest).length ≤
        (entriesChars (kv :: rest) ++ ['\n', '}']).length + 1 := by
      have := entriesChars_length_ge (kv :: rest)
      simp [List.length_append]
      simp at this
      omega
    rw [parseEntries_entries (kv :: rest) (by simp) h.1 _ hlen]
    simp

/-- The error raised when json.load cannot parse the persisted file
(json.JSONDecodeError); no caller catches it, so it aborts the session. -/
inductive LoadError where
  | corrupt
deriving DecidableEq

/-- Models Context construction with read_file: the dict starts as the
counter-0 dict (init assigns data and then counter 0); if the dotfile
exists, json.load's dict replaces it entirely, and an unparseable file
raises, which is fatal for the session.  The argument is the dotfile's
content when it exists. -/
def Context.read_file (file : Option (List Char)) : Except LoadError JData :=
  match file with
  | none => Except.ok [("counter", Jval.num 0)]
  | some s =>
    match json_loads s with
    | some d => Except.ok d
    | none => Except.error LoadError.corrupt

/-- Models Context.write_file: the dotfile's new durable content is the
JSON dump of the current dict, whatever was there before. -/
def Context.write_file (_prev : Option (List Char)) (d : JData) : Option (List Char) :=
  some (json_dumps d)

/-- Durable intermediate states of Context.write_file: opening the file
with mode w truncates it in place, then json.dump writes the serialized
dict; listed are the file contents after each of the two steps. -/
def Context.write_file_states (_prev : Option (List Char)) (d : JData) :
    List (Option (List Char)) :=
  [some [], some (json_dumps d)]

/-- The counter property of a Context dict: data at the counter key, when
present and numeric (a missing key raises KeyError in Python). -/
def Context.counter (d : JData) : Option Nat :=
  match d.lookup "counter" with
  | some (Jval.num n) => some n
  | _ => none

/-- C6 counterexample: write_file's first durable state, right after the
truncating open, is the empty file, and read_file fails on it with the
corruption error — so a write interrupted between truncation and dump
completion leaves a state file that load cannot parse, refuting the
claimed atomicity. -/
theorem write_file_not_atomic_cex :
    (Context.write_file_states (some (json_dumps [("counter", Jval.num 0)]))
        [("counter", Jval.num 1)]).head? = some (some []) ∧
      Context.read_file (some []) = Except.error LoadError.corrupt :=
  ⟨rfl, rfl⟩

/-- C6 amended: write_file is not atomic: it truncates the dotfile in
place, so its first durable state is the empty file, which read_file
rejects as corrupt; only when the dump completes does the file hold the
full serialized state, which read_file then parses back exactly. -/
theorem write_file_truncates (prev : Option (List Char)) (d : JData)
    (h : ValidJData d) :
    (Context.write_file_states prev d).head? = some (some []) ∧
      Context.read_file (some []) = Except.error LoadError.corrupt ∧
      (Context.write_file_states prev d).getLast? = some (Context.write_file prev d) ∧
      Context.read_file (Context.write_file prev d) = Except.ok d := by
  refine ⟨rfl, rfl, rfl, ?_⟩
  simp [Context.read_file, Context.write_file, json_loads_json_dumps d h]

/-- C6 amended witness: the theorem at a concrete state and a concrete
pre-existing file. -/
theorem write_file_truncates_witness :
    ValidJData [("counter", Jval.num 1)] ∧
      Context.read_file (Context.write_file
          (some (json_dumps [("counter", Jval.num 0)])) [("counter", Jval.num 1)]) =
        Except.ok [("counter", Jval.num 1)] :=
  ⟨by decide,
   (write_file_truncates (some (json_dumps [("counter", Jval.num 0)]))
     [("counter", Jval.num 1)] (by decide)).2.2.2⟩

/-- C7: saving any valid state — counter plus arbitrary extra keys of the
modelled fragment — and loading it back returns an equal dict, so the
counter round-trips exactly and unknown keys are preserved, with or
without a pre-existing state file. -/
theorem save_load_roundtrip (prev : Option (List Char)) (d : JData)
    (h : ValidJData d) :
    Context.read_file (Context.write_file prev d) = Except.ok d ∧
      (Context.read_file (Context.write_file prev d)).toOption.map Context.counter =
        some (Context.counter d) := by
  have hr : json_loads (json_dumps d) = some d := json_loads_json_dumps d h
  constructor
  · simp [Context.read_file, Context.write_file, hr]
  · simp [Context.read_file, Context.write_file, hr, Except.toOption]

/-- C7 witness: the theorem at a state carrying an auxiliary key beyond
the counter, once over a missing file and once over a pre-existing one. -/
theorem save_load_roundtrip_witness :
    ValidJData [("counter", Jval.num 3), ("note", Jval.str "en")] ∧
      Context.read_file (Context.write_file none
          [("counter", Jval.num 3), ("note", Jval.str "en")]) =
        Except.ok [("counter", Jval.num 3), ("note", Jval.str "en")] ∧
      Context.read_file (Context.write_file (some ['x'])
          [("counter", Jval.num 3), ("note", Jval.str "en")]) =
        Except.ok [("counter", Jval.num 3), ("note", Jval.str "en")] :=
  ⟨by decide,
   (save_load_roundtrip none [("counter", Jval.num 3), ("note", Jval.str "en")]
     (by decide)).1,
   (save_load_roundtrip (some ['x']) [("counter", Jval.num 3), ("note", Jval.str "en")]
     (by decide)).1⟩

/-- C8: when a state file exists but its contents are unparseable, load
fails with the corruption error and never substitutes any state — in
particular not a fresh counter-0 dict. -/
theorem corrupt_state_fatal (s : List Char) (h : json_loads s = none) :
    Context.read_file (some s) = Except.error LoadError.corrupt ∧
      ∀ d : JData, Context.read_file (some s) ≠ Except.ok d := by
  constructor
  · simp [Context.read_file, h]
  · intro d
    simp [Context.read_file, h]

/-- C8 witness: the theorem at two concrete corrupt files, garbage text
and the empty file. -/
theorem corrupt_state_fatal_witness :
    Context.read_file (some ['g', 'a', 'r']) = Except.error LoadError.corrupt ∧
      Context.read_file (some []) = Except.error LoadError.corrupt :=
  ⟨(corrupt_state_fatal ['g', 'a', 'r'] (by decide)).1,
   (corrupt_state_fatal [] (by decide)).1⟩

end Fiml
